import Mathlib

/-!
# Verification of the yt-transcript-dataset-generator pipeline

A shallow embedding of the Python sources (`main.py`, `src/dataset.py`,
`src/downloader.py`, `src/utils.py`, `src/qa.py`, `src/transcript.py`)
together with theorems settling the frozen specification claims.

Modelling conventions:
* Python strings are Lean `String`s; character-level work happens on the
  underlying `List Char`.
* Python library primitives used by the code (`str.split`, `str.strip`,
  `os.path.basename`, `os.path.splitext`, `os.path.join`, `csv` quoting,
  `json.dumps`) are embedded as executable Lean functions faithful to the
  documented CPython semantics.
* External collaborators and OS calls (network download, file existence,
  file read/write, the LLM backend, `json.loads`) are oracle parameters
  collected in environment records; the orchestrator's control flow over
  those oracles is embedded exactly.
-/

namespace YtDataset

/-- Python `str.isspace` for the code points relevant to `str.split()` /
`str.strip()`: ASCII whitespace, the C1 separators, and the Unicode
space characters recognised by CPython. -/
def pyIsSpace (c : Char) : Bool :=
  let n := c.toNat
  (9 ≤ n && n ≤ 13) || (28 ≤ n && n ≤ 31) || n == 32 || n == 133 || n == 160 ||
    n == 0x1680 || (0x2000 ≤ n && n ≤ 0x200A) || n == 0x2028 || n == 0x2029 ||
    n == 0x202F || n == 0x205F || n == 0x3000

/-- Drop trailing whitespace (helper for Python `str.strip`). -/
def dropTrailingWs (s : List Char) : List Char :=
  (s.reverse.dropWhile pyIsSpace).reverse

/-- Strip leading and trailing whitespace: Python `str.strip()`. -/
def trimBoth (s : List Char) : List Char :=
  dropTrailingWs (s.dropWhile pyIsSpace)

/-- Python `url.strip()` at the `String` level. -/
def pyStrip (s : String) : String := ⟨trimBoth s.data⟩

/-- Substring occurrence test on character lists. -/
def listContainsSub (sub : List Char) : List Char → Bool
  | [] => sub.isEmpty
  | c :: rest => sub.isPrefixOf (c :: rest) || listContainsSub sub rest

/-- Python substring test `sub in s`. -/
def strContains (s sub : String) : Bool := listContainsSub sub.data s.data

/-- Python `s.endswith(suf)`. -/
def pyEndsWith (s suf : String) : Bool :=
  List.isPrefixOf suf.data.reverse s.data.reverse

/-- Python `s.split(sep)` worker for a non-empty separator, scanning left to
right over non-overlapping occurrences.  The `Nat` argument counts separator
characters still to be skipped after a match. -/
def pySplitGo (sep : List Char) : List Char → Nat → List (List Char)
  | [], _ => [[]]
  | _ :: rest, Nat.succ k => pySplitGo sep rest k
  | c :: rest, 0 =>
    if sep.isPrefixOf (c :: rest) then
      [] :: pySplitGo sep rest (sep.length - 1)
    else
      match pySplitGo sep rest 0 with
      | [] => [[c]]
      | h :: t => (c :: h) :: t

/-- Python `s.split(sep)` for a non-empty separator. -/
def pySplit (sep s : List Char) : List (List Char) := pySplitGo sep s 0

/-- Python `parts[-1]` on the (always non-empty) result of `split`. -/
def pyLastD (l : List (List Char)) : List Char := l.getLastD []

/-- Python `parts[0]` on the (always non-empty) result of `split`. -/
def pyHeadD (l : List (List Char)) : List Char := l.headD []

/-- The characters of `s` strictly before the first occurrence of `a`
(specification-side description of `s.split(a)[0]` for a one-character
separator). -/
def upToFirstChar (a : Char) : List Char → List Char
  | [] => []
  | c :: rest => if c == a then [] else c :: upToFirstChar a rest

/-- The suffix of `s` after the first occurrence of the (non-empty)
pattern `sep`, or `none` when `sep` does not occur. -/
def afterFirstSub (sep : List Char) : List Char → Option (List Char)
  | [] => none
  | c :: rest =>
    if sep.isPrefixOf (c :: rest) then some (rest.drop (sep.length - 1))
    else afterFirstSub sep rest

/-- The suffix of `s` after the last (rightmost) occurrence of the
(non-empty) pattern `sep`, or `none` when `sep` does not occur. -/
def afterLastSub (sep : List Char) : List Char → Option (List Char)
  | [] => none
  | c :: rest =>
    match afterLastSub sep rest with
    | some r => some r
    | none =>
      if sep.isPrefixOf (c :: rest) then some (rest.drop (sep.length - 1))
      else none

/-- `src/downloader.py`, `get_video_id`: recognises the two YouTube URL
shapes and extracts the identifier with `str.split`. -/
def get_video_id (url : String) : Option String :=
  if strContains url "youtube.com/watch?v=" then
    some ⟨pyHeadD (pySplit ['&'] (pyLastD (pySplit ['v', '='] url.data)))⟩
  else if strContains url "youtu.be/" then
    some ⟨pyHeadD (pySplit ['?'] (pyLastD (pySplit "youtu.be/".data url.data)))⟩
  else none

/-- Python `text.split()` (split on runs of whitespace, discarding empty
fields), structurally recursive with a one-character lookahead. -/
def pySplitWs : List Char → List (List Char)
  | [] => []
  | c :: rest =>
    if pyIsSpace c then pySplitWs rest
    else
      match rest with
      | [] => [[c]]
      | d :: _ =>
        if pyIsSpace d then [c] :: pySplitWs rest
        else
          match pySplitWs rest with
          | [] => [[c]]
          | w :: ws => (c :: w) :: ws

/-- Python `" ".join(parts)`. -/
def joinSpace : List (List Char) → List Char
  | [] => []
  | [w] => w
  | w :: rest => w ++ ' ' :: joinSpace rest

/-- `src/utils.py`, `sanitize_transcript`: `"" if not text else
" ".join(text.split())`. -/
def sanitize_transcript (text : String) : String :=
  if text = "" then "" else ⟨joinSpace (pySplitWs text.data)⟩

/-- Specification-side sanitizer (refinement target for C6), following the
spec's words: replace every run of whitespace by a single ASCII space and
trim.  Trimming is done first; the remaining runs each become one space. -/
def replaceRuns : List Char → List Char
  | [] => []
  | [c] => if pyIsSpace c then [' '] else [c]
  | c :: d :: rest =>
    if pyIsSpace c then
      if pyIsSpace d then replaceRuns (d :: rest)
      else ' ' :: replaceRuns (d :: rest)
    else c :: replaceRuns (d :: rest)

/-- Specification-side sanitizer at the `String` level. -/
def specSanitize (s : String) : String := ⟨replaceRuns (trimBoth s.data)⟩

/-! ## JSON values (the universe of `json.loads` / `json.dumps`) -/

/-- JSON values as passed around by the Python code.  Numbers are modelled
as integers (no claim involves fractional values). -/
inductive Json where
  | null : Json
  | bool (b : Bool) : Json
  | num (n : Int) : Json
  | str (s : String) : Json
  | arr (l : List Json) : Json
  | obj (members : List (String × Json)) : Json

/-- The per-element validation used both by `main.py`'s `is_qa_pairs_valid`
and by `src/qa.py`: `isinstance(q, dict) and "question" in q and "answer" in q`. -/
def isValidPair : Json → Bool
  | Json.obj members =>
    members.any (fun kv => kv.1 == "question") &&
      members.any (fun kv => kv.1 == "answer")
  | _ => false

/-- Lower-case hex digit for `\uXXXX` escapes. -/
def hexDigit (n : Nat) : Char := if n < 10 then Char.ofNat (48 + n) else Char.ofNat (87 + n)

/-- The escape of a single character inside a `json.dumps` string literal
(with `ensure_ascii=False`, so non-ASCII characters stay literal). -/
def jsonEscChar (c : Char) : List Char :=
  if c == '"' then ['\\', '"']
  else if c == '\\' then ['\\', '\\']
  else if c == '\n' then ['\\', 'n']
  else if c == '\t' then ['\\', 't']
  else if c == '\r' then ['\\', 'r']
  else if c.toNat == 8 then ['\\', 'b']
  else if c.toNat == 12 then ['\\', 'f']
  else if c.toNat < 32 then ['\\', 'u', '0', '0', hexDigit (c.toNat / 16), hexDigit (c.toNat % 16)]
  else [c]

/-- A `json.dumps` string literal. -/
def jsonQuote (s : String) : List Char :=
  '"' :: (s.data.map jsonEscChar).flatten ++ ['"']

mutual

/-- `json.dumps(value, ensure_ascii=False)` with the default `", "` / `": "`
separators, as used for the `qa_pairs` record field in `main.py`. -/
def pyDumps : Json → List Char
  | Json.null => "null".data
  | Json.bool true => "true".data
  | Json.bool false => "false".data
  | Json.num n => (toString n).data
  | Json.str s => jsonQuote s
  | Json.arr l => '[' :: pyDumpsItems l ++ [']']
  | Json.obj ms => Char.ofNat 123 :: pyDumpsMembers ms ++ [Char.ofNat 125]

/-- Comma-separated array elements for `pyDumps`. -/
def pyDumpsItems : List Json → List Char
  | [] => []
  | [x] => pyDumps x
  | x :: y :: rest => pyDumps x ++ ',' :: ' ' :: pyDumpsItems (y :: rest)

/-- Comma-separated object members for `pyDumps`. -/
def pyDumpsMembers : List (String × Json) → List Char
  | [] => []
  | [kv] => jsonQuote kv.1 ++ ':' :: ' ' :: pyDumps kv.2
  | kv :: kv2 :: rest =>
    jsonQuote kv.1 ++ ':' :: ' ' :: pyDumps kv.2 ++ ',' :: ' ' :: pyDumpsMembers (kv2 :: rest)

end

/-! ## `src/qa.py` : QA generation and response parsing -/

/-- Outcome of the chat-completion call in `generate_qa_pairs`: either some
exception during the request (`fail`), or a completed call whose message
content is `content` (`none` models a `None` content field). -/
inductive BackendResult where
  | fail : BackendResult
  | ok (content : Option String) : BackendResult

/-- The substring matched by `re.search(r"\[.*\]", content, re.DOTALL)`:
from the first `[` to the last `]` following it, if both exist. -/
def bracketSpan (s : List Char) : Option (List Char) :=
  let t := s.dropWhile (fun c => !(c == '['))
  match t with
  | [] => none
  | _ :: _ =>
    let r := t.reverse.dropWhile (fun c => !(c == ']'))
    match r with
    | [] => none
    | _ :: _ => some r.reverse

/-- Second parse attempt of `generate_qa_pairs`: decode the first bracketed
span and accept only a list whose every element is a valid pair. -/
def parseBracketAttempt (loads : String → Option Json) (content : String) : List Json :=
  match bracketSpan content.data with
  | some sub =>
    match loads ⟨sub⟩ with
    | some (Json.arr l) => if l.all isValidPair then l else []
    | _ => []
  | none => []

/-- The response-parsing logic of `generate_qa_pairs` (`src/qa.py` lines
59-83): try the whole content as JSON, validating every element and
rejecting the whole attempt otherwise; then fall back to the first
bracketed span; then give up with `[]`. -/
def parse_qa_content (loads : String → Option Json) (content : String) : List Json :=
  match loads content with
  | some (Json.arr l) => if l.all isValidPair then l else parseBracketAttempt loads content
  | _ => parseBracketAttempt loads content

/-- `src/qa.py`, `generate_qa_pairs`: skip without an API key, return `[]`
on transport failure or missing content, otherwise parse the response.
`loads` is the `json.loads` oracle and `backend` the completion outcome;
`transcript` and `num_pairs` only shape the prompt sent to the backend. -/
def generate_qa_pairs (loads : String → Option Json) (api_key : String)
    (backend : BackendResult) (transcript : String) (num_pairs : Nat) : List Json :=
  if api_key = "" then []
  else
    match backend with
    | BackendResult.fail => []
    | BackendResult.ok none => []
    | BackendResult.ok (some content) =>
      if content = "" then [] else parse_qa_content loads content

/-! ## Path helpers (`os.path`) -/

/-- `os.path.basename` (POSIX): the part after the last `/`. -/
def basename (p : List Char) : List Char :=
  (p.reverse.takeWhile (fun c => !(c == '/'))).reverse

/-- The stem part of `os.path.splitext` applied to a basename: cut at the
last dot unless every character before it is a dot. -/
def splitextStem (name : List Char) : List Char :=
  let rev := name.reverse
  let ext := rev.takeWhile (fun c => !(c == '.'))
  if ext.length == rev.length then name
  else
    let pre := rev.drop (ext.length + 1)
    if pre.all (fun c => c == '.') then name else pre.reverse

/-- `os.path.join` for two components (POSIX rules used by the code). -/
def pathJoin (a b : String) : String :=
  if b.data.head? == some '/' then b
  else if a = "" then b
  else if a.data.getLast? == some '/' then a ++ b
  else a ++ "/" ++ b

/-- `os.path.splitext(os.path.basename(p))[0]` as used to derive `title`. -/
def pyTitleOf (p : String) : String := ⟨splitextStem (basename p.data)⟩

/-! ## `src/dataset.py` : the dataset writer -/

/-- One output record as assembled by `process_videos_from_csv`. -/
structure Record where
  url : String
  video_id : String
  title : String
  mp4_path : String
  mp3_path : String
  transcript_path : String
  transcript_exists : Bool
  transcript : String
  qa_pairs : String

/-- The `fieldnames` list of `write_dataset_csv` (`src/dataset.py` lines
20-29): eight columns. -/
def fieldnames : List String :=
  ["url", "video_id", "title", "mp4_path", "mp3_path", "transcript_path",
    "transcript_exists", "transcript"]

/-- The keys present in every dictionary appended by the orchestrator
(`main.py` lines 150-162): nine keys. -/
def recordKeys : List String :=
  ["url", "video_id", "title", "mp4_path", "mp3_path", "transcript_path",
    "transcript_exists", "transcript", "qa_pairs"]

/-- Python `str(True)` / `str(False)` as written by the `csv` module. -/
def pyStrOfBool (b : Bool) : String := if b then "True" else "False"

/-- Field lookup `rowdict.get(key, restval)` for an orchestrator record. -/
def recordGet (r : Record) (k : String) : String :=
  if k == "url" then r.url
  else if k == "video_id" then r.video_id
  else if k == "title" then r.title
  else if k == "mp4_path" then r.mp4_path
  else if k == "mp3_path" then r.mp3_path
  else if k == "transcript_path" then r.transcript_path
  else if k == "transcript_exists" then pyStrOfBool r.transcript_exists
  else if k == "transcript" then r.transcript
  else if k == "qa_pairs" then r.qa_pairs
  else ""

/-- One CSV field under `QUOTE_MINIMAL`: quote when the value contains the
delimiter, the quote character or a line break, doubling inner quotes. -/
def csvField (s : String) : List Char :=
  if s.data.any (fun c => c == ',' || c == '"' || c == '\n' || c == '\r') then
    '"' :: (s.data.map (fun c => if c == '"' then ['"', '"'] else [c])).flatten ++ ['"']
  else s.data

/-- A comma-joined CSV line. -/
def csvLine : List String → List Char
  | [] => []
  | [x] => csvField x
  | x :: y :: rest => csvField x ++ ',' :: csvLine (y :: rest)

/-- `csv.DictWriter.writerow` with the default `extrasaction="raise"`:
reject a dictionary holding keys outside `fieldnames`, otherwise emit the
fields in `fieldnames` order. -/
def dictWriterRow (r : Record) : Except String (List Char) :=
  if recordKeys.all (fun k => fieldnames.contains k) then
    Except.ok (csvLine (fieldnames.map (recordGet r)))
  else Except.error "dict contains fields not in fieldnames"

/-- The row loop of `write_dataset_csv`: the first `ValueError` aborts. -/
def writeRowLines : List Record → Except String (List (List Char))
  | [] => Except.ok []
  | r :: rest =>
    match dictWriterRow r with
    | Except.error e => Except.error e
    | Except.ok line =>
      match writeRowLines rest with
      | Except.error e => Except.error e
      | Except.ok lines => Except.ok (line :: lines)

/-- `src/dataset.py`, `write_dataset_csv`: header row then one line per
record; the result is the written lines, or the propagated error. -/
def write_dataset_csv (rows : List Record) : Except String (List (List Char)) :=
  match writeRowLines rows with
  | Except.error e => Except.error e
  | Except.ok lines => Except.ok (csvLine fieldnames :: lines)

/-! ## `main.py` : the pipeline orchestrator -/

/-- One input row as produced by `csv.DictReader`: the two fields the
orchestrator reads; `none` models a missing column. -/
structure Row where
  url : Option String
  qa_pairs : Option String

/-- The collaborator and OS oracles used by the orchestrator:
`os.listdir` of the video directory, `download_video`, `os.path.exists`,
reading and writing the transcript file (`none` / `false` model a raised
exception), `get_video_transcript`, `generate_qa_pairs` and `json.loads`. -/
structure Env where
  listVideoDir : List String
  download : String → Option String
  fileExists : String → Bool
  readFile : String → Option String
  fetchTranscript : String → Option String
  writeOk : String → Bool
  genQA : String → Nat → List Json
  loads : String → Option Json

/-- Which collaborators ran while processing one row. -/
structure Trace where
  downloadInvoked : Bool
  convertInvoked : Bool
  fetchInvoked : Bool
  qaInvoked : Bool

/-- Python truthiness of an optional string (`None` and `""` are falsy). -/
def truthyS : Option String → Bool
  | none => false
  | some s => !(s == "")

/-- `main.py`, inner helper `is_qa_pairs_valid`: the string must decode to
a non-empty JSON list whose every element is a valid pair. -/
def is_qa_pairs_valid (loads : String → Option Json) (qa_pairs_str : String) : Bool :=
  match loads qa_pairs_str with
  | some (Json.arr l) => !l.isEmpty && l.all isValidPair
  | _ => false

/-- `main.py` lines 71-91: reuse an existing `.mp4` whose name holds the
video id, otherwise download; yields the media path, the derived `title`
and whether the fetch collaborator ran. -/
def downloadStage (env : Env) (video_output_dir url vid : String) :
    Option String × String × Bool :=
  if vid == "" then
    match env.download url with
    | some p => (some p, if p == "" then "" else pyTitleOf p, true)
    | none => (none, "", true)
  else
    match (env.listVideoDir.filter
        (fun f => pyEndsWith f ".mp4" && strContains f vid)).head? with
    | some f =>
      let p := pathJoin video_output_dir f
      (some p, pyTitleOf p, false)
    | none =>
      match env.download url with
      | some p => (some p, if p == "" then "" else pyTitleOf p, true)
      | none => (none, "", true)

/-- `main.py` lines 105-120: read the transcript from disk when present
(an unreadable file is swallowed, with no fallback), else fetch it live
when a video id exists and persist it; yields the transcript value,
`transcript_exists` and whether the retrieval collaborator ran. -/
def transcriptStage (env : Env) (transcript_path vid : String) :
    Option String × Bool × Bool :=
  if !(transcript_path == "") && env.fileExists transcript_path then
    match env.readFile transcript_path with
    | some t => (some t, true, false)
    | none => (none, false, false)
  else if !(vid == "") then
    let tr := env.fetchTranscript vid
    (tr, truthyS tr && env.writeOk transcript_path, true)
  else (none, false, false)

/-- `main.py` lines 139-148: pass valid pre-existing QA pairs through,
otherwise generate five pairs when a sanitized transcript is available;
yields the pair list and whether QA synthesis ran.  (When the pre-existing
string is valid it decodes to a JSON list, so the fallback `[]` of the
re-decode is unreachable.) -/
def qaStage (env : Env) (qa_pairs_str : String) (transcript : Option String)
    (transcript_exists : Bool) : List Json × Bool :=
  if is_qa_pairs_valid env.loads qa_pairs_str then
    (match env.loads qa_pairs_str with
     | some (Json.arr l) => l
     | _ => [], false)
  else if truthyS transcript && transcript_exists then
    (env.genQA (transcript.getD "") 5, true)
  else ([], false)

/-- The stripped `url` field of a row (`main.py` line 60). -/
def rowUrl (row : Row) : String := pyStrip (row.url.getD "")

/-- `video_id or ""`: the extracted id, with `None` mapped to an empty
string so that Python truthiness becomes an emptiness test. -/
def rowVid (row : Row) : String := (get_video_id (rowUrl row)).getD ""

/-- The download/reuse stage result for a row. -/
def rowDl (env : Env) (video_output_dir : String) (row : Row) :
    Option String × String × Bool :=
  downloadStage env video_output_dir (rowUrl row) (rowVid row)

/-- The derived `title` of a row. -/
def rowTitle (env : Env) (video_output_dir : String) (row : Row) : String :=
  (rowDl env video_output_dir row).2.1

/-- The derived `mp3_path` of a row (`main.py` line 93). -/
def rowMp3Path (env : Env) (video_output_dir audio_output_dir : String)
    (row : Row) : String :=
  if rowTitle env video_output_dir row == "" then ""
  else pathJoin audio_output_dir (rowTitle env video_output_dir row ++ ".mp3")

/-- The derived `transcript_path` of a row (`main.py` lines 94-96). -/
def rowTrPath (env : Env) (video_output_dir transcript_output_dir : String)
    (row : Row) : String :=
  if rowTitle env video_output_dir row == "" then ""
  else pathJoin transcript_output_dir (rowTitle env video_output_dir row ++ ".txt")

/-- The transcript stage result for a row. -/
def rowTs (env : Env) (video_output_dir transcript_output_dir : String)
    (row : Row) : Option String × Bool × Bool :=
  transcriptStage env (rowTrPath env video_output_dir transcript_output_dir row)
    (rowVid row)

/-- The body of the per-row loop of `process_videos_from_csv`
(`main.py` lines 60-162), for a row whose stripped URL is non-empty. -/
def processRowBody (env : Env)
    (video_output_dir audio_output_dir transcript_output_dir : String)
    (row : Row) : Record × Trace :=
  let mp4_path := (rowDl env video_output_dir row).1
  let mp3_path := rowMp3Path env video_output_dir audio_output_dir row
  let convertInvoked := truthyS mp4_path && env.fileExists (mp4_path.getD "") &&
    !(!(mp3_path == "") && env.fileExists mp3_path)
  let ts := rowTs env video_output_dir transcript_output_dir row
  let transcript1 :=
    if truthyS ts.1 then some (sanitize_transcript (ts.1.getD "")) else ts.1
  let qa := qaStage env (row.qa_pairs.getD "") transcript1 ts.2.1
  ({ url := rowUrl row
     video_id := rowVid row
     title := rowTitle env video_output_dir row
     mp4_path := mp4_path.getD ""
     mp3_path := mp3_path
     transcript_path :=
       if ts.2.1 then rowTrPath env video_output_dir transcript_output_dir row else ""
     transcript_exists := ts.2.1
     transcript := if ts.2.1 then transcript1.getD "" else ""
     qa_pairs := ⟨pyDumps (Json.arr qa.1)⟩ },
   { downloadInvoked := (rowDl env video_output_dir row).2.2
     convertInvoked := convertInvoked
     fetchInvoked := ts.2.2
     qaInvoked := qa.2 })

/-- One iteration of the loop: a row whose stripped URL is empty is
skipped outright (`continue`). -/
def process_row (env : Env) (vd ad td : String) (row : Row) :
    Option (Record × Trace) :=
  if rowUrl row == "" then none
  else some (processRowBody env vd ad td row)

/-- The record sequence accumulated in `dataset_rows` by the loop. -/
def dataset_rows (env : Env) (vd ad td : String) (rows : List Row) : List Record :=
  (rows.filterMap (process_row env vd ad td)).map Prod.fst

/-- `main.py`, `process_videos_from_csv`: run the loop over the input rows
and hand the accumulated records to the dataset writer. -/
def process_videos_from_csv (env : Env) (vd ad td : String) (rows : List Row) :
    Except String (List (List Char)) :=
  write_dataset_csv (dataset_rows env vd ad td rows)

/-! ## Specification-side definitions and concrete test fixtures -/

/-- Claim C5's reading of long-form extraction: the substring between the
`v=` of the first `watch?v=` occurrence and the next `&` (or end). -/
def specWatchVId (url : String) : Option String :=
  (afterFirstSub "watch?v=".data url.data).map (fun r => (⟨upToFirstChar '&' r⟩ : String))

/-- Every character of a word is non-whitespace and the word is non-empty
(the invariant of `str.split()` output). -/
def goodWord (w : List Char) : Prop := w ≠ [] ∧ ∀ c ∈ w, pyIsSpace c = false

/-- The first character, if any, is not whitespace. -/
def headNonsp (s : List Char) : Prop := ∀ c, s.head? = some c → pyIsSpace c = false

/-- The last character, if any, is not whitespace. -/
def lastNonsp (s : List Char) : Prop := ∀ c, s.getLast? = some c → pyIsSpace c = false

/-- An environment in which every collaborator fails or is empty. -/
def envInert : Env where
  listVideoDir := []
  download := fun _ => none
  fileExists := fun _ => false
  readFile := fun _ => none
  fetchTranscript := fun _ => none
  writeOk := fun _ => false
  genQA := fun _ _ => []
  loads := fun _ => none

/-- Fixture row for C1. -/
def rowC1 : Row := { url := some "https://youtu.be/abc", qa_pairs := none }

/-- Fixture rows for C2. -/
def rowC2a : Row := { url := some "https://youtu.be/vidA", qa_pairs := none }

/-- Second fixture row for C2 (stripped URL, pre-existing empty list). -/
def rowC2b : Row := { url := some " https://youtu.be/vidB ", qa_pairs := some "[]" }

/-- A backend reply containing two well-formed QA pairs. -/
def qaContentCx : String :=
  "[\x7b\"question\": \"q1\", \"answer\": \"a1\"\x7d, \x7b\"question\": \"q2\", \"answer\": \"a2\"\x7d]"

/-- First decoded pair of `qaContentCx`. -/
def qaPairCx1 : Json := Json.obj [("question", Json.str "q1"), ("answer", Json.str "a1")]

/-- Second decoded pair of `qaContentCx`. -/
def qaPairCx2 : Json := Json.obj [("question", Json.str "q2"), ("answer", Json.str "a2")]

/-- A `json.loads` oracle agreeing with real JSON decoding on `qaContentCx`. -/
def loadsCx : String → Option Json :=
  fun s => if s == qaContentCx then some (Json.arr [qaPairCx1, qaPairCx2]) else none

/-- A pre-existing `qa_pairs` CSV field holding one well-formed pair. -/
def qaStrW : String := "[\x7b\"question\": \"q\", \"answer\": \"a\"\x7d]"

/-- The pair decoded from `qaStrW`. -/
def qaPairW : Json := Json.obj [("question", Json.str "q"), ("answer", Json.str "a")]

/-- Environment whose `json.loads` oracle decodes `qaStrW` as real JSON would. -/
def envC4 : Env :=
  { envInert with loads := fun s => if s == qaStrW then some (Json.arr [qaPairW]) else none }

/-- Fixture row for C4: a non-empty URL and valid pre-existing pairs. -/
def rowC4 : Row := { url := some "https://youtu.be/abc", qa_pairs := some qaStrW }

/-- A `json.loads` oracle decoding a list with one non-object element. -/
def loadsC9 : String → Option Json :=
  fun s => if s == "[\"x\"]" then some (Json.arr [Json.str "x"]) else none

/-- Environment for C8: download fails, transcripts for `abc` are available. -/
def envC8 : Env :=
  { envInert with
      fetchTranscript := fun v => if v == "abc" then some "hello world" else none }

/-- Fixture row for C8: valid short-form URL, so a video id is present. -/
def rowC8 : Row := { url := some "https://youtu.be/abc", qa_pairs := none }

/-- Environment for C10: download succeeds, the derived transcript file
exists on disk but reading it raises. -/
def envC10 : Env :=
  { envInert with
      download := fun _ => some "videos/talk.mp4"
      fileExists := fun p => p == "tr/talk.txt"
      fetchTranscript := fun _ => some "never used" }

/-- Fixture row for C10. -/
def rowC10 : Row := { url := some "https://youtu.be/talkid", qa_pairs := none }

/-! ## Claim C1 and C2: the dataset writer versus the orchestrator records -/

/-- C1: the claim states that the writer emits the nine-column header
`url,...,qa_pairs` and one data row per orchestrator record.  In the code
the writer's `fieldnames` has only eight columns (no `qa_pairs`), while
every orchestrator record carries a `qa_pairs` key, so `csv.DictWriter`
(default `extrasaction="raise"`) raises `ValueError` on the very first
record: the run aborts and no nine-column table is ever written. -/
theorem C1_writer_rejects_qa_pairs :
    (dataset_rows envInert "videos" "audio" "tr" [rowC1]).length = 1 ∧
    process_videos_from_csv envInert "videos" "audio" "tr" [rowC1] =
      Except.error "dict contains fields not in fieldnames" ∧
    csvLine fieldnames =
      "url,video_id,title,mp4_path,mp3_path,transcript_path,transcript_exists,transcript".data ∧
    fieldnames.contains "qa_pairs" = false :=
  ⟨rfl, rfl, rfl, rfl⟩

/-- C2: the claimed round-trip (write N orchestrator records, read back a
header plus N data rows) fails for every N ≥ 1: `write_dataset_csv` raises
`ValueError` because the records hold the extra `qa_pairs` key.  Here a
two-record orchestrator sequence is rejected. -/
theorem C2_roundtrip_fails :
    (dataset_rows envInert "v" "a" "t" [rowC2a, rowC2b]).length = 2 ∧
    write_dataset_csv (dataset_rows envInert "v" "a" "t" [rowC2a, rowC2b]) =
      Except.error "dict contains fields not in fieldnames" ∧
    write_dataset_csv [] = Except.ok [csvLine fieldnames] :=
  ⟨rfl, rfl, rfl⟩

/-! ## Claim C3: one record per non-empty URL -/

/-- C3: over any input table, the orchestrator emits exactly one record per
row whose stripped `url` is non-empty, in input order; rows with an empty
or missing `url` contribute nothing. -/
theorem C3_one_record_per_nonempty_url (env : Env) (vd ad td : String)
    (rows : List Row) :
    dataset_rows env vd ad td rows =
      (rows.filter (fun r => !(rowUrl r == ""))).map
        (fun r => (processRowBody env vd ad td r).1) := by
  induction rows with
  | nil => rfl
  | cons r rest ih =>
    unfold dataset_rows at ih ⊢
    rw [List.filterMap_cons, List.filter_cons]
    cases h : (rowUrl r == "") with
    | true => simp [process_row, h, ih]
    | false => simp [process_row, h, ih]

/-! ## Claim C4: valid pre-existing QA pairs pass through unchanged -/

/-- C4: when a row's pre-existing `qa_pairs` string decodes to a non-empty
JSON list whose every element holds both keys, the output record stores
exactly that list re-encoded by `json.dumps`, and QA synthesis is not
invoked for the row. -/
theorem C4_qa_passthrough (env : Env) (vd ad td : String) (row : Row)
    (s : String) (l : List Json) (hs : row.qa_pairs = some s)
    (hl : env.loads s = some (Json.arr l)) (hne : l ≠ [])
    (hv : l.all isValidPair = true) :
    (processRowBody env vd ad td row).1.qa_pairs = (⟨pyDumps (Json.arr l)⟩ : String) ∧
    (processRowBody env vd ad td row).2.qaInvoked = false := by
  have hvalid : is_qa_pairs_valid env.loads s = true := by
    unfold is_qa_pairs_valid
    rw [hl]
    cases l with
    | nil => exact absurd rfl hne
    | cons x xs => simpa using hv
  constructor <;>
    simp [processRowBody, qaStage, hs, hvalid, hl]

/-- Witness for C4 at a concrete environment and row. -/
theorem C4_qa_passthrough_witness :
    (processRowBody envC4 "v" "a" "t" rowC4).1.qa_pairs =
      (⟨pyDumps (Json.arr [qaPairW])⟩ : String) ∧
    (processRowBody envC4 "v" "a" "t" rowC4).2.qaInvoked = false :=
  C4_qa_passthrough envC4 "v" "a" "t" rowC4 qaStrW [qaPairW] rfl rfl
    (List.cons_ne_nil _ _) rfl

/-! ## Claim C7: requested pair count versus returned length -/

/-- C7 counterexample: with a backend reply decoding to two valid pairs and
a requested count of five, `generate_qa_pairs` returns a list of length
two — neither 0 nor the requested count. -/
theorem C7_cx_length_two :
    (generate_qa_pairs loadsCx "key" (BackendResult.ok (some qaContentCx)) "t" 5).length = 2 ∧
    ¬((generate_qa_pairs loadsCx "key" (BackendResult.ok (some qaContentCx)) "t" 5).length = 0 ∨
      (generate_qa_pairs loadsCx "key" (BackendResult.ok (some qaContentCx)) "t" 5).length = 5) := by
  constructor
  · rfl
  · intro h
    cases h with
    | inl h => exact absurd ((rfl :
        (generate_qa_pairs loadsCx "key" (BackendResult.ok (some qaContentCx)) "t" 5).length
          = 2).symm.trans h) (by decide)
    | inr h => exact absurd ((rfl :
        (generate_qa_pairs loadsCx "key" (BackendResult.ok (some qaContentCx)) "t" 5).length
          = 2).symm.trans h) (by decide)

/-- The bracket-span fallback of the QA response parser either fails with
`[]` or returns, whole, the validated list decoded from the span. -/
theorem parseBracketAttempt_spec (loads : String → Option Json) (content : String) :
    parseBracketAttempt loads content = [] ∨
    ∃ l, parseBracketAttempt loads content = l ∧ l.all isValidPair = true ∧
      ∃ sub, bracketSpan content.data = some sub ∧
        loads (⟨sub⟩ : String) = some (Json.arr l) := by
  unfold parseBracketAttempt
  split
  next sub hb =>
    split
    next l hl =>
      by_cases hv : l.all isValidPair = true
      · rw [if_pos hv]
        exact Or.inr ⟨l, rfl, hv, sub, hb, hl⟩
      · rw [if_neg hv]
        exact Or.inl rfl
    next => exact Or.inl rfl
  next => exact Or.inl rfl

/-- The complete QA response parser either fails with `[]` or returns,
whole, a validated list decoded from the content or from its span. -/
theorem parse_qa_content_spec (loads : String → Option Json) (content : String) :
    parse_qa_content loads content = [] ∨
    ∃ l, parse_qa_content loads content = l ∧ l.all isValidPair = true ∧
      (loads content = some (Json.arr l) ∨
        ∃ sub, bracketSpan content.data = some sub ∧
          loads (⟨sub⟩ : String) = some (Json.arr l)) := by
  unfold parse_qa_content
  split
  next l hl =>
    by_cases hv : l.all isValidPair = true
    · rw [if_pos hv]
      exact Or.inr ⟨l, rfl, hv, Or.inl hl⟩
    · rw [if_neg hv]
      exact Or.imp id
        (fun ⟨l2, he, hv2, sub, hb, hl2⟩ => ⟨l2, he, hv2, Or.inr ⟨sub, hb, hl2⟩⟩)
        (parseBracketAttempt_spec loads content)
  next =>
    exact Or.imp id
      (fun ⟨l2, he, hv2, sub, hb, hl2⟩ => ⟨l2, he, hv2, Or.inr ⟨sub, hb, hl2⟩⟩)
      (parseBracketAttempt_spec loads content)

/-- C7 amended: `generate_qa_pairs` returns either the empty list or the
entire validated list decoded from the backend content (directly or from
its first bracketed span); the length is that of the decoded list, which
the requested count does not constrain. -/
theorem C7_amended_full_list_or_empty (loads : String → Option Json)
    (api_key : String) (backend : BackendResult) (transcript : String)
    (num_pairs : Nat) :
    generate_qa_pairs loads api_key backend transcript num_pairs = [] ∨
    ∃ content l, backend = BackendResult.ok (some content) ∧
      generate_qa_pairs loads api_key backend transcript num_pairs = l ∧
      l.all isValidPair = true ∧
      (loads content = some (Json.arr l) ∨
        ∃ sub, bracketSpan content.data = some sub ∧
          loads (⟨sub⟩ : String) = some (Json.arr l)) := by
  unfold generate_qa_pairs
  by_cases hk : api_key = ""
  · rw [if_pos hk]; exact Or.inl rfl
  · rw [if_neg hk]
    cases backend with
    | fail => exact Or.inl rfl
    | ok oc =>
      cases oc with
      | none => exact Or.inl rfl
      | some content =>
        by_cases hc : content = ""
        · exact Or.inl (if_pos hc)
        · rcases parse_qa_content_spec loads content with hE | ⟨l, he, hv, horig⟩
          · exact Or.inl ((if_neg hc).trans hE)
          · exact Or.inr ⟨content, l, rfl, (if_neg hc).trans he, hv, horig⟩

/-! ## Claim C9: whole-attempt rejection in QA response parsing -/

/-- C9: if a parse attempt decodes to a list containing any invalid
element, that entire attempt is rejected (the direct attempt falls through
wholesale to the bracket-span attempt, never to a filtered sublist), a
bracket-span list with an invalid element yields `[]`, a missing span
yields `[]`, and whatever is returned is entirely valid. -/
theorem C9_reject_whole_attempt (loads : String → Option Json) (content : String) :
    ((parse_qa_content loads content).all isValidPair = true) ∧
    (∀ l, loads content = some (Json.arr l) → l.all isValidPair = false →
      parse_qa_content loads content = parseBracketAttempt loads content) ∧
    (∀ sub l, bracketSpan content.data = some sub →
      loads (⟨sub⟩ : String) = some (Json.arr l) → l.all isValidPair = false →
      parseBracketAttempt loads content = []) ∧
    (bracketSpan content.data = none → parseBracketAttempt loads content = []) := by
  refine ⟨?_, ?_, ?_, ?_⟩
  · rcases parse_qa_content_spec loads content with hE | ⟨l, he, hv, horig⟩
    · rw [hE]; rfl
    · rw [he]; exact hv
  · intro l hl hv
    unfold parse_qa_content
    rw [hl]
    simp [hv]
  · intro sub l hb hl hv
    unfold parseBracketAttempt
    split
    next sub2 hb2 =>
      have hsub : sub2 = sub := by
        have := hb.symm.trans hb2
        exact (Option.some.injEq _ _ ▸ this).symm
      subst hsub
      split
      next l2 hl2 =>
        have hll : l = l2 := by
          have h12 := hl.symm.trans hl2
          simpa using h12
        subst hll
        rw [if_neg (by simp [hv])]
      next => rfl
    next hbn => rfl
  · intro hb
    unfold parseBracketAttempt
    split
    next sub2 hb2 => exact absurd (hb.symm.trans hb2) (by simp)
    next => rfl

/-- Witness for C9: a decoded one-element list whose element is a bare
string (not an object) is rejected wholesale and the parse yields `[]`. -/
theorem C9_witness_rejects : parse_qa_content loadsC9 "[\"x\"]" = [] := by
  have h := C9_reject_whole_attempt loadsC9 "[\"x\"]"
  have h2 := h.2.1 [Json.str "x"] rfl rfl
  have h3 := h.2.2.1 "[\"x\"]".data [Json.str "x"] rfl rfl rfl
  exact h2.trans h3

/-! ## Claim C10: unreadable on-disk transcript, no live fallback -/

/-- C10: when the transcript file exists at the derived path but reading it
raises, the orchestrator does not fall back to live retrieval even when a
video id is present: the record ends with `transcript_exists = false` and
empty `transcript` / `transcript_path` fields, and the loop continues with
the remaining rows. -/
theorem C10_unreadable_no_fallback (env : Env) (vd ad td : String) (row : Row)
    (h1 : ¬(rowTrPath env vd td row = ""))
    (h2 : env.fileExists (rowTrPath env vd td row) = true)
    (h3 : env.readFile (rowTrPath env vd td row) = none) :
    (processRowBody env vd ad td row).1.transcript_exists = false ∧
    (processRowBody env vd ad td row).1.transcript = "" ∧
    (processRowBody env vd ad td row).1.transcript_path = "" ∧
    (processRowBody env vd ad td row).2.fetchInvoked = false ∧
    (∀ rest, ¬(rowUrl row = "") →
      dataset_rows env vd ad td (row :: rest) =
        (processRowBody env vd ad td row).1 :: dataset_rows env vd ad td rest) := by
  have hts : rowTs env vd td row = (none, false, false) := by
    unfold rowTs transcriptStage
    rw [beq_eq_false_iff_ne.mpr h1, h2, h3]
    rfl
  refine ⟨?_, ?_, ?_, ?_, ?_⟩
  · simp [processRowBody, hts]
  · simp [processRowBody, hts]
  · simp [processRowBody, hts]
  · simp [processRowBody, hts]
  · intro rest hu
    unfold dataset_rows
    rw [List.filterMap_cons]
    simp [process_row, beq_eq_false_iff_ne.mpr hu]

/-- Witness for C10 at a concrete environment: the transcript file for the
derived title exists but is unreadable. -/
theorem C10_unreadable_witness :
    (processRowBody envC10 "videos" "audio" "tr" rowC10).1.transcript_exists = false ∧
    (processRowBody envC10 "videos" "audio" "tr" rowC10).1.transcript = "" ∧
    (processRowBody envC10 "videos" "audio" "tr" rowC10).1.transcript_path = "" ∧
    (processRowBody envC10 "videos" "audio" "tr" rowC10).2.fetchInvoked = false ∧
    dataset_rows envC10 "videos" "audio" "tr" [rowC10] =
      [(processRowBody envC10 "videos" "audio" "tr" rowC10).1] := by
  have h := C10_unreadable_no_fallback envC10 "videos" "audio" "tr" rowC10
    (by decide) rfl rfl
  exact ⟨h.1, h.2.1, h.2.2.1, h.2.2.2.1, (h.2.2.2.2 [] (by decide)).trans rfl⟩

/-! ## Claim C8: rows with an undeterminable title -/

/-- A `String.mk` is empty exactly when its character list is. -/
theorem strMk_eq_empty (l : List Char) : ((⟨l⟩ : String) = "") ↔ l = [] :=
  ⟨fun h => congrArg String.data h, fun h => by rw [h]⟩

/-- `os.path.splitext` never turns a non-empty basename into an empty stem. -/
theorem splitextStem_ne_nil (name : List Char) (h : name ≠ []) :
    splitextStem name ≠ [] := by
  simp only [splitextStem]
  split
  · exact h
  · split
    · exact h
    · next hall =>
      intro hnil
      exact hall (by rw [List.reverse_eq_nil_iff.mp hnil]; rfl)

/-- A path whose last character is not a slash has a non-empty basename. -/
theorem basename_ne_nil (p : List Char) (c : Char) (t : List Char)
    (hrev : p.reverse = c :: t) (hc : (c == '/') = false) : basename p ≠ [] := by
  unfold basename
  rw [hrev, List.takeWhile_cons]
  simp [hc]

/-- `os.path.join` keeps the second component as a suffix. -/
theorem pathJoin_data_ends (a b : String) :
    ∃ y, (pathJoin a b).data = y ++ b.data := by
  unfold pathJoin
  split
  · exact ⟨[], rfl⟩
  · split
    · exact ⟨[], rfl⟩
    · split
      · exact ⟨a.data, rfl⟩
      · exact ⟨(a ++ "/").data, rfl⟩

/-- A name ending in `.mp4` has `'4'` as its last character. -/
theorem pyEndsWith_mp4_last (f : String) (h : pyEndsWith f ".mp4" = true) :
    ∃ t, f.data.reverse = '4' :: t := by
  unfold pyEndsWith at h
  have hrev : (".mp4" : String).data.reverse = ['4', 'p', 'm', '.'] := rfl
  rw [hrev] at h
  cases hf : f.data.reverse with
  | nil => rw [hf] at h; exact absurd h (by decide)
  | cons c t =>
    rw [hf] at h
    have h2 : ('4' == c) = true ∧ List.isPrefixOf ['p', 'm', '.'] t = true := by
      simpa [List.isPrefixOf] using h
    exact ⟨t, by rw [beq_iff_eq.mp h2.1]⟩

/-- With `transcript_exists = false`, QA synthesis is never invoked. -/
theorem qaStage_not_invoked (env : Env) (qs : String) (t : Option String) :
    (qaStage env qs t false).2 = false := by
  unfold qaStage
  split
  · rfl
  · simp

/-- When a row's derived title is empty, the download collaborator must
have failed (given that download paths end in a non-empty basename), so no
media path exists for the row. -/
theorem rowTitle_empty_mp4_none (env : Env) (vd : String) (row : Row)
    (hD : ∀ p, env.download (rowUrl row) = some p →
      ¬(pyTitleOf p = "") ∧ ¬(p = ""))
    (hT : rowTitle env vd row = "") : (rowDl env vd row).1 = none := by
  unfold rowTitle at hT
  unfold rowDl downloadStage at hT ⊢
  by_cases hvid : (rowVid row == "") = true
  · rw [if_pos hvid] at hT ⊢
    cases hp : env.download (rowUrl row) with
    | none => rfl
    | some p =>
      exfalso
      rw [hp] at hT
      rcases hD p hp with ⟨ht1, ht2⟩
      have hT2 : (if (p == "") = true then "" else pyTitleOf p) = "" := hT
      by_cases hpe : (p == "") = true
      · exact ht2 (beq_iff_eq.mp hpe)
      · rw [if_neg hpe] at hT2
        exact ht1 hT2
  · rw [if_neg hvid] at hT ⊢
    cases hf : env.listVideoDir.filter
        (fun f => pyEndsWith f ".mp4" && strContains f (rowVid row)) with
    | cons f fs =>
      exfalso
      rw [hf] at hT
      have hT2 : pyTitleOf (pathJoin vd f) = "" := hT
      have hmem : f ∈ env.listVideoDir.filter
          (fun f => pyEndsWith f ".mp4" && strContains f (rowVid row)) := by
        rw [hf]; exact List.mem_cons_self f fs
      have hends : pyEndsWith f ".mp4" = true := by
        have hpred := (List.mem_filter.mp hmem).2
        simp only [Bool.and_eq_true] at hpred
        exact hpred.1
      obtain ⟨t, ht⟩ := pyEndsWith_mp4_last f hends
      obtain ⟨y, hy⟩ := pathJoin_data_ends vd f
      have hrev : (pathJoin vd f).data.reverse = '4' :: (t ++ y.reverse) := by
        rw [hy, List.reverse_append, ht]; rfl
      have hb : basename (pathJoin vd f).data ≠ [] :=
        basename_ne_nil _ '4' _ hrev (by decide)
      exact splitextStem_ne_nil _ hb ((strMk_eq_empty _).mp hT2)
    | nil =>
      rw [hf] at hT
      cases hp : env.download (rowUrl row) with
      | none => rfl
      | some p =>
        exfalso
        rw [hp] at hT
        rcases hD p hp with ⟨ht1, ht2⟩
        have hT2 : (if (p == "") = true then "" else pyTitleOf p) = "" := hT
        by_cases hpe : (p == "") = true
        · exact ht2 (beq_iff_eq.mp hpe)
        · rw [if_neg hpe] at hT2
          exact ht1 hT2

/-- C8 counterexample: with a present video id and a failed download the
title is empty, yet the transcript retrieval collaborator IS invoked —
refuting the claim that all downstream stages are skipped. -/
theorem C8_cx_fetch_invoked :
    (processRowBody envC8 "v" "a" "t" rowC8).1.title = "" ∧
    (processRowBody envC8 "v" "a" "t" rowC8).2.fetchInvoked = true := ⟨rfl, rfl⟩

/-- C8 amended: with an empty title the derived `mp3_path` and
`transcript_path` are empty, audio conversion and QA generation are
skipped and the record's transcript fields stay empty/false — but
transcript retrieval is still invoked exactly when a video id is present
(its persistence to the empty path then fails). -/
theorem C8_amended_title_empty (env : Env) (vd ad td : String) (row : Row)
    (hD : ∀ p, env.download (rowUrl row) = some p →
      ¬(pyTitleOf p = "") ∧ ¬(p = ""))
    (hW : env.writeOk "" = false)
    (hT : rowTitle env vd row = "") :
    (processRowBody env vd ad td row).1.mp3_path = "" ∧
    (processRowBody env vd ad td row).1.transcript_path = "" ∧
    (processRowBody env vd ad td row).1.transcript_exists = false ∧
    (processRowBody env vd ad td row).1.transcript = "" ∧
    (processRowBody env vd ad td row).2.convertInvoked = false ∧
    (processRowBody env vd ad td row).2.qaInvoked = false ∧
    (processRowBody env vd ad td row).2.fetchInvoked = !(rowVid row == "") := by
  have hmp3 : rowMp3Path env vd ad row = "" := by simp [rowMp3Path, hT]
  have htp : rowTrPath env vd td row = "" := by simp [rowTrPath, hT]
  have hmp4 : (rowDl env vd row).1 = none := rowTitle_empty_mp4_none env vd row hD hT
  have hts : (rowTs env vd td row).2.1 = false ∧
      (rowTs env vd td row).2.2 = !(rowVid row == "") := by
    unfold rowTs transcriptStage
    rw [htp]
    cases hv : (rowVid row == "") with
    | true => simp [hv]
    | false => simp [hv, hW]
  refine ⟨?_, ?_, ?_, ?_, ?_, ?_, ?_⟩
  · simpa [processRowBody] using hmp3
  · simp [processRowBody, hts.1]
  · simpa [processRowBody] using hts.1
  · simp [processRowBody, hts.1]
  · simp [processRowBody, hmp4, truthyS]
  · simp [processRowBody, hts.1, qaStage_not_invoked]
  · simpa [processRowBody] using hts.2

/-- Witness for the amended C8 at a concrete environment. -/
theorem C8_amended_witness :
    (processRowBody envC8 "v" "a" "t" rowC8).1.mp3_path = "" ∧
    (processRowBody envC8 "v" "a" "t" rowC8).1.transcript_path = "" ∧
    (processRowBody envC8 "v" "a" "t" rowC8).1.transcript_exists = false ∧
    (processRowBody envC8 "v" "a" "t" rowC8).1.transcript = "" ∧
    (processRowBody envC8 "v" "a" "t" rowC8).2.convertInvoked = false ∧
    (processRowBody envC8 "v" "a" "t" rowC8).2.qaInvoked = false ∧
    (processRowBody envC8 "v" "a" "t" rowC8).2.fetchInvoked = !(rowVid rowC8 == "") :=
  C8_amended_title_empty envC8 "v" "a" "t" rowC8
    (fun p hp => Option.noConfusion hp) rfl rfl

/-! ## Claim C5: video-id extraction -/

/-- The Python split worker never returns an empty list. -/
theorem pySplitGo_ne_nil (sep : List Char) (s : List Char) (k : Nat) :
    pySplitGo sep s k ≠ [] := by
  induction s generalizing k with
  | nil => simp [pySplitGo]
  | cons c rest ih =>
    cases k with
    | succ k => simpa [pySplitGo] using ih k
    | zero =>
      unfold pySplitGo
      split
      · simp
      · split <;> simp

/-- One-step unfolding of `pySplitGo` at skip state zero. -/
theorem pySplitGo_cons_zero (sep : List Char) (c : Char) (rest : List Char) :
    pySplitGo sep (c :: rest) 0 =
      if List.isPrefixOf sep (c :: rest) then
        [] :: pySplitGo sep rest (sep.length - 1)
      else
        match pySplitGo sep rest 0 with
        | [] => [[c]]
        | h :: t => (c :: h) :: t := rfl

/-- Unfold `pySplitGo` at a matching position. -/
theorem pySplitGo_cons_zero_pos (sep : List Char) (c : Char) (rest : List Char)
    (hp : List.isPrefixOf sep (c :: rest) = true) :
    pySplitGo sep (c :: rest) 0 = [] :: pySplitGo sep rest (sep.length - 1) := by
  rw [pySplitGo_cons_zero, if_pos hp]

/-- Unfold `pySplitGo` at a non-matching position. -/
theorem pySplitGo_cons_zero_neg (sep : List Char) (c : Char) (rest : List Char)
    (hp : List.isPrefixOf sep (c :: rest) = false) :
    pySplitGo sep (c :: rest) 0 =
      match pySplitGo sep rest 0 with
      | [] => [[c]]
      | h :: t => (c :: h) :: t := by
  rw [pySplitGo_cons_zero, if_neg (by simp [hp])]

/-- Unfold `afterLastSub` one step. -/
theorem afterLastSub_cons (sep : List Char) (c : Char) (rest : List Char) :
    afterLastSub sep (c :: rest) =
      match afterLastSub sep rest with
      | some r => some r
      | none =>
        if List.isPrefixOf sep (c :: rest) then some (rest.drop (sep.length - 1))
        else none := rfl

/-- `afterLastSub` skips a position where the pattern does not match. -/
theorem afterLastSub_cons_notpre (sep : List Char) (c : Char) (rest : List Char)
    (hp : List.isPrefixOf sep (c :: rest) = false) :
    afterLastSub sep (c :: rest) = afterLastSub sep rest := by
  rw [afterLastSub_cons]
  cases hr : afterLastSub sep rest with
  | some r => rfl
  | none => simp [hp]

/-- For a two-character separator with distinct characters, the Python
split of `s` is `[s]` when the separator does not occur, and otherwise its
last element is the suffix after the rightmost occurrence. -/
theorem pySplitGo_last_pair (a b : Char) (hab : (a == b) = false) :
    ∀ (n : Nat) (s : List Char), s.length ≤ n →
      (afterLastSub [a, b] s = none → pySplitGo [a, b] s 0 = [s]) ∧
      (∀ r, afterLastSub [a, b] s = some r →
        ∃ x xs, pySplitGo [a, b] s 0 = x :: xs ∧ xs ≠ [] ∧
          (x :: xs).getLast? = some r) := by
  intro n
  induction n with
  | zero =>
    intro s hs
    have hnil : s = [] := List.length_eq_zero.mp (Nat.le_zero.mp hs)
    subst hnil
    exact ⟨fun _ => rfl, fun r hr => by simp [afterLastSub] at hr⟩
  | succ n ih =>
    intro s hs
    cases s with
    | nil => exact ⟨fun _ => rfl, fun r hr => by simp [afterLastSub] at hr⟩
    | cons c rest =>
      have hrest : rest.length ≤ n := Nat.le_of_succ_le_succ hs
      by_cases hp : List.isPrefixOf [a, b] (c :: rest) = true
      · -- the separator matches here: c = a and rest starts with b
        cases rest with
        | nil => simp [List.isPrefixOf] at hp
        | cons d rest2 =>
          have hrest2 : rest2.length ≤ n := by
            simp only [List.length_cons] at hs hrest
            omega
          have hac : a = c ∧ b = d := by
            simp only [List.isPrefixOf, Bool.and_eq_true, beq_iff_eq] at hp
            exact ⟨hp.1, hp.2.1⟩
          obtain ⟨hac1, hac2⟩ := hac
          subst hac1
          subst hac2
          have hnotpre2 : List.isPrefixOf [a, b] (b :: rest2) = false := by
            simp [List.isPrefixOf, hab]
          have hgo : pySplitGo [a, b] (a :: b :: rest2) 0 =
              [] :: pySplitGo [a, b] rest2 0 := by
            rw [pySplitGo_cons_zero_pos _ _ _ hp]
            rfl
          have hals : afterLastSub [a, b] (a :: b :: rest2) =
              match afterLastSub [a, b] rest2 with
              | some r => some r
              | none => some rest2 := by
            rw [afterLastSub_cons, afterLastSub_cons_notpre _ _ _ hnotpre2]
            cases hr : afterLastSub [a, b] rest2 with
            | some r => rfl
            | none => simp [hp]
          constructor
          · intro hnone
            rw [hals] at hnone
            cases hr : afterLastSub [a, b] rest2 with
            | some r => rw [hr] at hnone; exact absurd hnone (by simp)
            | none => rw [hr] at hnone; exact absurd hnone (by simp)
          · intro r hr
            rw [hals] at hr
            cases hr2 : afterLastSub [a, b] rest2 with
            | none =>
              rw [hr2] at hr
              have hrr : r = rest2 := by simpa using hr.symm
              rw [hrr]
              have h1 := (ih rest2 hrest2).1 hr2
              rw [hgo, h1]
              exact ⟨[], [rest2], rfl, by simp, rfl⟩
            | some r0 =>
              rw [hr2] at hr
              have hrr : r0 = r := by simpa using hr
              subst hrr
              obtain ⟨x, xs, hgo2, hne, hlast⟩ := (ih rest2 hrest2).2 r0 hr2
              rw [hgo, hgo2]
              refine ⟨[], x :: xs, rfl, by simp, ?_⟩
              rw [List.getLast?_cons_cons]
              exact hlast
      · -- no match at this position
        have hp2 : List.isPrefixOf [a, b] (c :: rest) = false :=
          Bool.eq_false_iff.mpr hp
        have hals : afterLastSub [a, b] (c :: rest) = afterLastSub [a, b] rest :=
          afterLastSub_cons_notpre _ _ _ hp2
        constructor
        · intro hnone
          rw [hals] at hnone
          have h1 := (ih rest hrest).1 hnone
          rw [pySplitGo_cons_zero_neg _ _ _ hp2, h1]
        · intro r hr
          rw [hals] at hr
          obtain ⟨x, xs, hgo2, hne, hlast⟩ := (ih rest hrest).2 r hr
          rw [pySplitGo_cons_zero_neg _ _ _ hp2, hgo2]
          cases xs with
          | nil => exact absurd rfl hne
          | cons y ys =>
            refine ⟨c :: x, y :: ys, rfl, by simp, ?_⟩
            rw [List.getLast?_cons_cons]
            rw [List.getLast?_cons_cons] at hlast
            exact hlast

/-- `s.split(sep)[-1]` is the suffix of `s` after the rightmost occurrence
of the two-character separator (or `s` itself when it does not occur). -/
theorem pyLastD_pySplit_pair (a b : Char) (hab : (a == b) = false)
    (s : List Char) :
    pyLastD (pySplit [a, b] s) = (afterLastSub [a, b] s).getD s := by
  cases hals : afterLastSub [a, b] s with
  | none =>
    unfold pyLastD pySplit
    rw [(pySplitGo_last_pair a b hab s.length s (Nat.le_refl _)).1 hals]
    rfl
  | some r =>
    obtain ⟨x, xs, hgo, hne, hlast⟩ :=
      (pySplitGo_last_pair a b hab s.length s (Nat.le_refl _)).2 r hals
    unfold pyLastD pySplit
    rw [hgo, List.getLastD_eq_getLast?, hlast]
    rfl

/-- `s.split(ch)[0]` is the prefix of `s` before the first occurrence of a
one-character separator. -/
theorem pyHeadD_pySplit_single (a : Char) (s : List Char) :
    pyHeadD (pySplit [a] s) = upToFirstChar a s := by
  induction s with
  | nil => rfl
  | cons c rest ih =>
    unfold pySplit
    by_cases hceq : c = a
    · subst hceq
      have hp : List.isPrefixOf [c] (c :: rest) = true := by simp [List.isPrefixOf]
      rw [pySplitGo_cons_zero_pos _ _ _ hp]
      simp [pyHeadD, upToFirstChar]
    · have hp : List.isPrefixOf [a] (c :: rest) = false := by
        simp [List.isPrefixOf, beq_eq_false_iff_ne.mpr (Ne.symm hceq)]
      rw [pySplitGo_cons_zero_neg _ _ _ hp]
      cases hgo : pySplitGo [a] rest 0 with
      | nil => exact absurd hgo (pySplitGo_ne_nil _ _ _)
      | cons x xs =>
        have hx : x = upToFirstChar a rest := by
          have h2 := ih
          unfold pySplit at h2
          rw [hgo] at h2
          simpa [pyHeadD] using h2
        simp [pyHeadD, upToFirstChar, beq_eq_false_iff_ne.mpr hceq, hx]

/-- C5 counterexample: on a URL holding a second `v=` after the
`watch?v=<id>` part, the code extracts from the last `v=`, not from the
`watch?v=` one, so the claimed value `abc` is not returned. -/
theorem C5_cx_last_not_first :
    specWatchVId "https://www.youtube.com/watch?v=abc&x=1&v=def" = some "abc" ∧
    get_video_id "https://www.youtube.com/watch?v=abc&x=1&v=def" = some "def" ∧
    ¬(get_video_id "https://www.youtube.com/watch?v=abc&x=1&v=def" =
      specWatchVId "https://www.youtube.com/watch?v=abc&x=1&v=def") := by
  refine ⟨by decide, by decide, by decide⟩

/-- C5 amended: for a URL containing `youtube.com/watch?v=`, the extracted
id is the substring between the LAST occurrence of `v=` and the next `&`
(or end of string) — which agrees with the claim whenever `v=` occurs only
once; URLs matching neither recognised shape yield `none`. -/
theorem C5_amended_last_v (url : String) :
    (strContains url "youtube.com/watch?v=" = true →
      get_video_id url =
        some (⟨upToFirstChar '&'
          ((afterLastSub ['v', '='] url.data).getD url.data)⟩ : String)) ∧
    (strContains url "youtube.com/watch?v=" = false →
      strContains url "youtu.be/" = false →
      get_video_id url = none) := by
  constructor
  · intro h
    unfold get_video_id
    rw [if_pos h, pyLastD_pySplit_pair 'v' '=' (by decide),
      pyHeadD_pySplit_single]
  · intro h1 h2
    unfold get_video_id
    rw [if_neg (by simp [h1]), if_neg (by simp [h2])]

/-- Witness for the amended C5: the canonical long-form URL and a
non-matching URL. -/
theorem C5_amended_witness :
    get_video_id "https://www.youtube.com/watch?v=dQw4w9WgXcQ" =
      some "dQw4w9WgXcQ" ∧
    get_video_id "https://example.com/" = none := by
  constructor
  · exact ((C5_amended_last_v "https://www.youtube.com/watch?v=dQw4w9WgXcQ").1
      (by decide)).trans (by decide)
  · exact (C5_amended_last_v "https://example.com/").2 (by decide) (by decide)

/-! ## Claim C6: the transcript sanitizer -/

/-- One-step unfolding of `pySplitWs` on a singleton. -/
theorem pySplitWs_one (c : Char) :
    pySplitWs [c] = if pyIsSpace c then [] else [[c]] := rfl

/-- One-step unfolding of `pySplitWs` on two or more characters. -/
theorem pySplitWs_cons2 (c d : Char) (rest : List Char) :
    pySplitWs (c :: d :: rest) =
      if pyIsSpace c then pySplitWs (d :: rest)
      else if pyIsSpace d then [c] :: pySplitWs (d :: rest)
      else
        match pySplitWs (d :: rest) with
        | [] => [[c]]
        | w :: ws => (c :: w) :: ws := rfl

/-- `str.split()` skips a leading whitespace character. -/
theorem pySplitWs_sp (c : Char) (rest : List Char) (hc : pyIsSpace c = true) :
    pySplitWs (c :: rest) = pySplitWs rest := by
  cases rest with
  | nil => rw [pySplitWs_one, if_pos hc]; rfl
  | cons d r => rw [pySplitWs_cons2, if_pos hc]

/-- One-step unfolding of `replaceRuns` on two or more characters. -/
theorem replaceRuns_cons2 (c d : Char) (rest : List Char) :
    replaceRuns (c :: d :: rest) =
      if pyIsSpace c then
        if pyIsSpace d then replaceRuns (d :: rest)
        else ' ' :: replaceRuns (d :: rest)
      else c :: replaceRuns (d :: rest) := rfl

/-- `str.split()` of a string starting with a non-space is non-empty. -/
theorem pySplitWs_cons_nonspace_ne_nil (c : Char) (rest : List Char)
    (hc : pyIsSpace c = false) : pySplitWs (c :: rest) ≠ [] := by
  cases rest with
  | nil => rw [pySplitWs_one, if_neg (by simp [hc])]; simp
  | cons d r2 =>
    rw [pySplitWs_cons2, if_neg (by simp [hc])]
    split
    · simp
    · split <;> simp

/-- Every word produced by `str.split()` is non-empty and whitespace-free. -/
theorem pySplitWs_good : ∀ (s : List Char), ∀ w ∈ pySplitWs s, goodWord w := by
  intro s
  induction s with
  | nil => intro w hw; simp [pySplitWs] at hw
  | cons c rest ih =>
    intro w hw
    by_cases hc : pyIsSpace c = true
    · rw [pySplitWs_sp c rest hc] at hw
      exact ih w hw
    · have hc' : pyIsSpace c = false := Bool.eq_false_iff.mpr hc
      cases rest with
      | nil =>
        rw [pySplitWs_one, if_neg hc] at hw
        have hwc : w = [c] := by simpa using hw
        subst hwc
        exact ⟨List.cons_ne_nil _ _, fun e he => by
          have : e = c := by simpa using he
          subst this; exact hc'⟩
      | cons d r2 =>
        rw [pySplitWs_cons2, if_neg hc] at hw
        by_cases hd : pyIsSpace d = true
        · rw [if_pos hd] at hw
          rcases List.mem_cons.mp hw with h | h
          · subst h
            exact ⟨List.cons_ne_nil _ _, fun e he => by
              have : e = c := by simpa using he
              subst this; exact hc'⟩
          · exact ih w h
        · rw [if_neg hd] at hw
          cases hsp : pySplitWs (d :: r2) with
          | nil =>
            rw [hsp] at hw
            have hwc : w = [c] := by simpa using hw
            subst hwc
            exact ⟨List.cons_ne_nil _ _, fun e he => by
              have : e = c := by simpa using he
              subst this; exact hc'⟩
          | cons x xs =>
            rw [hsp] at hw
            rcases List.mem_cons.mp hw with h | h
            · subst h
              have hx := ih x (by rw [hsp]; exact List.mem_cons_self _ _)
              refine ⟨List.cons_ne_nil _ _, fun e he => ?_⟩
              rcases List.mem_cons.mp he with h1 | h1
              · subst h1; exact hc'
              · exact hx.2 e h1
            · exact ih w (by rw [hsp]; exact List.mem_cons_of_mem _ h)

/-- `str.split()` of a non-empty whitespace-free word is that word alone. -/
theorem pySplitWs_all_nonspace : ∀ (w : List Char),
    (∀ c ∈ w, pyIsSpace c = false) → w ≠ [] → pySplitWs w = [w] := by
  intro w
  induction w with
  | nil => intro _ h; exact absurd rfl h
  | cons c cs ih =>
    intro hall _
    have hc : pyIsSpace c = false := hall c (List.mem_cons_self _ _)
    cases cs with
    | nil => rw [pySplitWs_one, if_neg (by simp [hc])]
    | cons d cs2 =>
      have hd : pyIsSpace d = false := hall d (by simp)
      rw [pySplitWs_cons2, if_neg (by simp [hc]), if_neg (by simp [hd])]
      rw [ih (fun e he => hall e (List.mem_cons_of_mem _ he)) (by simp)]

/-- `str.split()` pulls off a leading word followed by a space. -/
theorem pySplitWs_word_sep : ∀ (w : List Char), goodWord w →
    ∀ t, pySplitWs (w ++ ' ' :: t) = w :: pySplitWs t := by
  intro w
  induction w with
  | nil => intro hg; exact absurd rfl hg.1
  | cons c cs ih =>
    intro hg t
    have hc : pyIsSpace c = false := hg.2 c (by simp)
    cases cs with
    | nil =>
      simp only [List.cons_append, List.nil_append]
      rw [pySplitWs_cons2, if_neg (by simp [hc]), if_pos (by decide),
        pySplitWs_sp ' ' t (by decide)]
    | cons d cs2 =>
      have hd : pyIsSpace d = false := hg.2 d (by simp)
      simp only [List.cons_append]
      rw [pySplitWs_cons2, if_neg (by simp [hc]), if_neg (by simp [hd])]
      have ih2 := ih ⟨List.cons_ne_nil _ _,
        fun e he => hg.2 e (List.mem_cons_of_mem _ he)⟩ t
      simp only [List.cons_append] at ih2
      rw [ih2]

/-- `str.split()` is a left inverse of joining good words with spaces. -/
theorem pySplitWs_joinSpace : ∀ (L : List (List Char)),
    (∀ w ∈ L, goodWord w) → pySplitWs (joinSpace L) = L := by
  intro L
  induction L with
  | nil => intro _; rfl
  | cons w L2 ih =>
    intro hall
    cases L2 with
    | nil =>
      exact pySplitWs_all_nonspace w (hall w (by simp)).2 (hall w (by simp)).1
    | cons w2 L3 =>
      rw [show joinSpace (w :: w2 :: L3) = w ++ ' ' :: joinSpace (w2 :: L3) from rfl]
      rw [pySplitWs_word_sep w (hall w (by simp)) _]
      rw [ih (fun x hx => hall x (List.mem_cons_of_mem _ hx))]

/-- `str.split()` of an all-whitespace string is empty. -/
theorem pySplitWs_all_space : ∀ (t : List Char),
    (∀ c ∈ t, pyIsSpace c = true) → pySplitWs t = [] := by
  intro t
  induction t with
  | nil => intro _; rfl
  | cons c r ih =>
    intro hall
    rw [pySplitWs_sp c r (hall c (by simp))]
    exact ih (fun e he => hall e (List.mem_cons_of_mem _ he))

/-- Trailing whitespace does not change `str.split()`. -/
theorem pySplitWs_append_ws : ∀ (s t : List Char),
    (∀ c ∈ t, pyIsSpace c = true) → pySplitWs (s ++ t) = pySplitWs s := by
  intro s
  induction s with
  | nil =>
    intro t hall
    rw [List.nil_append, pySplitWs_all_space t hall]
    rfl
  | cons c s2 ih =>
    intro t hall
    rw [List.cons_append]
    by_cases hc : pyIsSpace c = true
    · rw [pySplitWs_sp c _ hc, pySplitWs_sp c _ hc, ih t hall]
    · cases s2 with
      | nil =>
        rw [List.nil_append, pySplitWs_one, if_neg hc]
        cases t with
        | nil => rw [pySplitWs_one, if_neg hc]
        | cons d t2 =>
          have hd := hall d (by simp)
          rw [pySplitWs_cons2, if_neg hc, if_pos hd, pySplitWs_sp d _ hd,
            pySplitWs_all_space t2 (fun e he => hall e (List.mem_cons_of_mem _ he))]
      | cons d s3 =>
        rw [List.cons_append]
        by_cases hd : pyIsSpace d = true
        · rw [pySplitWs_cons2, if_neg hc, if_pos hd, pySplitWs_cons2, if_neg hc,
            if_pos hd, ← List.cons_append, ih t hall]
        · rw [pySplitWs_cons2, if_neg hc, if_neg hd, pySplitWs_cons2, if_neg hc,
            if_neg hd, ← List.cons_append, ih t hall]

/-- Leading whitespace does not change `str.split()`. -/
theorem pySplitWs_dropWhile_ws : ∀ (s : List Char),
    pySplitWs (s.dropWhile pyIsSpace) = pySplitWs s := by
  intro s
  induction s with
  | nil => rfl
  | cons c r ih =>
    by_cases hc : pyIsSpace c = true
    · rw [List.dropWhile_cons_of_pos hc, ih, pySplitWs_sp c r hc]
    · rw [List.dropWhile_cons_of_neg hc]

/-- Removing trailing whitespace is removing an all-whitespace suffix. -/
theorem dropTrailingWs_decomp (s : List Char) :
    ∃ t, s = dropTrailingWs s ++ t ∧ ∀ c ∈ t, pyIsSpace c = true := by
  refine ⟨(s.reverse.takeWhile pyIsSpace).reverse, ?_, ?_⟩
  · unfold dropTrailingWs
    rw [← List.reverse_append, List.takeWhile_append_dropWhile,
      List.reverse_reverse]
  · intro c hc
    rw [List.mem_reverse] at hc
    exact List.mem_takeWhile_imp hc

/-- Stripping does not change `str.split()`. -/
theorem pySplitWs_trimBoth (s : List Char) :
    pySplitWs (trimBoth s) = pySplitWs s := by
  unfold trimBoth
  obtain ⟨t, hdec, hsp⟩ := dropTrailingWs_decomp (s.dropWhile pyIsSpace)
  calc pySplitWs (dropTrailingWs (s.dropWhile pyIsSpace))
      = pySplitWs (dropTrailingWs (s.dropWhile pyIsSpace) ++ t) :=
        (pySplitWs_append_ws _ t hsp).symm
    _ = pySplitWs (s.dropWhile pyIsSpace) := by rw [← hdec]
    _ = pySplitWs s := pySplitWs_dropWhile_ws s

/-- The head surviving a `dropWhile` refutes the predicate. -/
theorem head?_dropWhile_false (p : Char → Bool) : ∀ (l : List Char) (c : Char),
    (l.dropWhile p).head? = some c → p c = false := by
  intro l
  induction l with
  | nil => intro c h; simp at h
  | cons a r ih =>
    intro c h
    by_cases ha : p a = true
    · rw [List.dropWhile_cons_of_pos ha] at h
      exact ih c h
    · rw [List.dropWhile_cons_of_neg ha] at h
      have : a = c := by simpa using h
      subst this
      exact Bool.eq_false_iff.mpr ha

/-- A stripped string does not start with whitespace. -/
theorem trimBoth_headNonsp (s : List Char) : headNonsp (trimBoth s) := by
  intro c hc
  obtain ⟨t, hdec, _⟩ := dropTrailingWs_decomp (s.dropWhile pyIsSpace)
  cases hu : trimBoth s with
  | nil => rw [hu] at hc; simp at hc
  | cons x u2 =>
    rw [hu] at hc
    have hx : x = c := by simpa using hc
    subst hx
    have h2 : (s.dropWhile pyIsSpace).head? = some x := by
      unfold trimBoth at hu
      rw [hdec, hu]
      rfl
    exact head?_dropWhile_false pyIsSpace s x h2

/-- A stripped string does not end with whitespace. -/
theorem trimBoth_lastNonsp (s : List Char) : lastNonsp (trimBoth s) := by
  intro c hc
  unfold trimBoth dropTrailingWs at hc
  rw [List.getLast?_reverse] at hc
  exact head?_dropWhile_false pyIsSpace _ c hc

/-- `str.split()` of a string with a non-space last character is non-empty. -/
theorem pySplitWs_ne_nil_of_last : ∀ (s : List Char) (e : Char),
    s.getLast? = some e → pyIsSpace e = false → pySplitWs s ≠ [] := by
  intro s
  induction s with
  | nil => intro e he; simp at he
  | cons c r ih =>
    intro e he hsp
    cases r with
    | nil =>
      have : c = e := by simpa using he
      subst this
      rw [pySplitWs_one, if_neg (by simp [hsp])]
      simp
    | cons d r2 =>
      have he2 : (d :: r2).getLast? = some e := by
        rwa [List.getLast?_cons_cons] at he
      by_cases hc : pyIsSpace c = true
      · rw [pySplitWs_sp c _ hc]
        exact ih e he2 hsp
      · exact pySplitWs_cons_nonspace_ne_nil c _ (Bool.eq_false_iff.mpr hc)

/-- Joining after prefixing the first word distributes over the head. -/
theorem joinSpace_cons_head (c : Char) (w : List Char) (ws : List (List Char)) :
    joinSpace ((c :: w) :: ws) = c :: joinSpace (w :: ws) := by
  cases ws with
  | nil => rfl
  | cons y ys => rfl

/-- Core refinement: on a string with no whitespace at either edge,
run-collapse coincides with split-and-rejoin; on one starting with
whitespace (but not ending with it), it produces a single leading space. -/
theorem replaceRuns_join_aux : ∀ (n : Nat) (s : List Char), s.length ≤ n →
    (headNonsp s → lastNonsp s → replaceRuns s = joinSpace (pySplitWs s)) ∧
    (∀ c rest, s = c :: rest → pyIsSpace c = true → lastNonsp s →
      replaceRuns s = ' ' :: joinSpace (pySplitWs s)) := by
  intro n
  induction n with
  | zero =>
    intro s hs
    have hnil : s = [] := List.length_eq_zero.mp (Nat.le_zero.mp hs)
    subst hnil
    exact ⟨fun _ _ => rfl, fun c rest heq _ _ => by simp at heq⟩
  | succ n ih =>
    intro s hs
    cases s with
    | nil => exact ⟨fun _ _ => rfl, fun c rest heq _ _ => by simp at heq⟩
    | cons c s2 =>
      cases s2 with
      | nil =>
        constructor
        · intro hh hl
          have hc : pyIsSpace c = false := hh c rfl
          rw [pySplitWs_one, if_neg (by simp [hc])]
          unfold replaceRuns
          rw [if_neg (by simp [hc])]
          rfl
        · intro c' rest' heq hsp hl
          injection heq with h1 h2
          subst h1
          have hce : pyIsSpace c = false := hl c rfl
          exact absurd hsp (by simp [hce])
      | cons d rest =>
        have hlen : (d :: rest).length ≤ n := by
          simp only [List.length_cons] at hs ⊢
          omega
        have ih2 := ih (d :: rest) hlen
        constructor
        · intro hh hl
          have hc : pyIsSpace c = false := hh c rfl
          have hl2 : lastNonsp (d :: rest) := by
            intro e he
            exact hl e (by rw [List.getLast?_cons_cons]; exact he)
          rw [replaceRuns_cons2, if_neg (by simp [hc])]
          by_cases hd : pyIsSpace d = true
          · have hN := ih2.2 d rest rfl hd hl2
            rw [pySplitWs_cons2, if_neg (by simp [hc]), if_pos hd]
            obtain ⟨e, he⟩ : ∃ e, (d :: rest).getLast? = some e := by
              cases hgl : (d :: rest).getLast? with
              | none => exact absurd (List.getLast?_eq_none_iff.mp hgl) (by simp)
              | some e => exact ⟨e, rfl⟩
            have henil := pySplitWs_ne_nil_of_last (d :: rest) e he (hl2 e he)
            cases hsp2 : pySplitWs (d :: rest) with
            | nil => exact absurd hsp2 henil
            | cons w ws =>
              rw [hsp2] at hN
              rw [hN]
              rfl
          · have hd' : pyIsSpace d = false := Bool.eq_false_iff.mpr hd
            have hh2 : headNonsp (d :: rest) := by
              intro e he
              have hde : d = e := by simpa using he
              subst hde; exact hd'
            have hM := ih2.1 hh2 hl2
            rw [pySplitWs_cons2, if_neg (by simp [hc]), if_neg (by simp [hd'])]
            cases hsp2 : pySplitWs (d :: rest) with
            | nil => exact absurd hsp2 (pySplitWs_cons_nonspace_ne_nil d rest hd')
            | cons w ws =>
              rw [hsp2] at hM
              show c :: replaceRuns (d :: rest) = joinSpace ((c :: w) :: ws)
              rw [hM, joinSpace_cons_head]
        · intro c' rest' heq hsp hl
          injection heq with h1 h2
          subst h1
          have hl2 : lastNonsp (d :: rest) := by
            intro e he
            exact hl e (by rw [List.getLast?_cons_cons]; exact he)
          rw [replaceRuns_cons2, if_pos hsp, pySplitWs_cons2, if_pos hsp]
          by_cases hd : pyIsSpace d = true
          · rw [if_pos hd]
            exact ih2.2 d rest rfl hd hl2
          · have hd' : pyIsSpace d = false := Bool.eq_false_iff.mpr hd
            rw [if_neg hd]
            have hh2 : headNonsp (d :: rest) := by
              intro e he
              have hde : d = e := by simpa using he
              subst hde; exact hd'
            rw [ih2.1 hh2 hl2]

/-- C6: `sanitize_transcript` is total, idempotent, satisfies the two
spec examples, and equals the specification-side sanitizer (trim, then
collapse every whitespace run to one ASCII space). -/
theorem C6_sanitize_idempotent_and_spec :
    (∀ s : String, sanitize_transcript (sanitize_transcript s) = sanitize_transcript s) ∧
    sanitize_transcript "" = "" ∧
    sanitize_transcript "a\n\n b   c" = "a b c" ∧
    (∀ s : String, sanitize_transcript s = specSanitize s) := by
  refine ⟨?_, rfl, by decide, ?_⟩
  · intro s
    by_cases hs : s = ""
    · subst hs; rfl
    · unfold sanitize_transcript
      rw [if_neg hs]
      by_cases h2 : (⟨joinSpace (pySplitWs s.data)⟩ : String) = ""
      · rw [if_pos h2, h2]
      · rw [if_neg h2]
        congr 1
        rw [show (⟨joinSpace (pySplitWs s.data)⟩ : String).data =
          joinSpace (pySplitWs s.data) from rfl]
        rw [pySplitWs_joinSpace _ (pySplitWs_good s.data)]
  · intro s
    by_cases hs : s = ""
    · subst hs; rfl
    · unfold sanitize_transcript specSanitize
      rw [if_neg hs]
      congr 1
      have hM := (replaceRuns_join_aux (trimBoth s.data).length (trimBoth s.data)
        (Nat.le_refl _)).1 (trimBoth_headNonsp s.data) (trimBoth_lastNonsp s.data)
      rw [hM, pySplitWs_trimBoth]

end YtDataset
